import Mathlib

/-!
Verification development for the ow_cat input-method engine core.

The C++ core is shallowly embedded here:
* `std::string` is modelled as `List Nat` (its UTF-8 byte sequence, each byte
  in 0..255), so `s.length()` is `List.length`, `s.substr`/`find`/comparison
  are byte-wise exactly as in C++;
* `double` scores are modelled as `ℚ` (all score arithmetic in the source is
  exact decimal arithmetic: +, min, max, division by 10, so the rational model
  agrees with the IEEE values produced for the inputs considered here);
* `int` is modelled as `Int`;
* the SQLite words table is modelled as a `List DictEntry`, and each SQL
  statement of dictionary_manager.cpp is translated to a list function with
  SQLite semantics (INSERT OR REPLACE, LIKE-prefix filtering, ORDER BY,
  LIMIT, UPDATE);
* `std::sort` guarantees only a sorted permutation (the relative order of
  equal elements is unspecified), so the candidate sort is modelled twice:
  a deterministic executable engine using one admissible behaviour
  (a stable insertion sort), and a relation `sortOutcome` capturing every
  behaviour the C++ standard permits.  Claims whose content is invariant
  under the tie order (buffer contents, state, membership, counts) are
  settled on the executable engine; order-sensitive claims use the relation.
-/

set_option maxRecDepth 4096

namespace OwCat

/- Batteries marks the `Rat` arithmetic operations `@[irreducible]`, which
blocks `decide` on concrete score computations; restore the default
reducibility locally so concrete runs evaluate. -/
attribute [local semireducible] Rat.add Rat.mul Rat.inv Rat.sub Rat.ofScientific

/-- UTF-8 encoding of one code point. -/
def charUtf8 (c : Char) : List Nat :=
  let n := c.toNat
  if n < 0x80 then [n]
  else if n < 0x800 then [0xC0 ||| (n >>> 6), 0x80 ||| (n &&& 0x3F)]
  else if n < 0x10000 then
    [0xE0 ||| (n >>> 12), 0x80 ||| ((n >>> 6) &&& 0x3F), 0x80 ||| (n &&& 0x3F)]
  else
    [0xF0 ||| (n >>> 18), 0x80 ||| ((n >>> 12) &&& 0x3F),
     0x80 ||| ((n >>> 6) &&& 0x3F), 0x80 ||| (n &&& 0x3F)]

/-- UTF-8 byte sequence of a Lean string literal: the model of the
corresponding C++ `std::string` constant. -/
def utf8 (s : String) : List Nat := s.data.flatMap charUtf8

/-- The fixed syllable table `STANDARD_PINYINS` from pinyin_converter.cpp. -/
def STANDARD_PINYINS : List String := [
  "a", "ai", "an", "ang", "ao",
  "ba", "bai", "ban", "bang", "bao", "bei", "ben", "beng", "bi", "bian", "biao", "bie", "bin", "bing", "bo", "bu",
  "ca", "cai", "can", "cang", "cao", "ce", "cen", "ceng", "cha", "chai", "chan", "chang", "chao", "che", "chen", "cheng", "chi", "chong", "chou", "chu", "chuai", "chuan", "chuang", "chui", "chun", "chuo", "ci", "cong", "cou", "cu", "cuan", "cui", "cun", "cuo",
  "da", "dai", "dan", "dang", "dao", "de", "deng", "di", "dian", "diao", "die", "ding", "diu", "dong", "dou", "du", "duan", "dui", "dun", "duo",
  "e", "en", "er",
  "fa", "fan", "fang", "fei", "fen", "feng", "fo", "fou", "fu",
  "ga", "gai", "gan", "gang", "gao", "ge", "gei", "gen", "geng", "gong", "gou", "gu", "gua", "guai", "guan", "guang", "gui", "gun", "guo",
  "ha", "hai", "han", "hang", "hao", "he", "hei", "hen", "heng", "hong", "hou", "hu", "hua", "huai", "huan", "huang", "hui", "hun", "huo",
  "ji", "jia", "jian", "jiang", "jiao", "jie", "jin", "jing", "jiong", "jiu", "ju", "juan", "jue", "jun",
  "ka", "kai", "kan", "kang", "kao", "ke", "ken", "keng", "kong", "kou", "ku", "kua", "kuai", "kuan", "kuang", "kui", "kun", "kuo",
  "la", "lai", "lan", "lang", "lao", "le", "lei", "leng", "li", "lia", "lian", "liang", "liao", "lie", "lin", "ling", "liu", "long", "lou", "lu", "luan", "lue", "lun", "luo", "lv",
  "ma", "mai", "man", "mang", "mao", "me", "mei", "men", "meng", "mi", "mian", "miao", "mie", "min", "ming", "miu", "mo", "mou", "mu",
  "na", "nai", "nan", "nang", "nao", "ne", "nei", "nen", "neng", "ni", "nian", "niang", "niao", "nie", "nin", "ning", "niu", "nong", "nu", "nuan", "nue", "nuo", "nv",
  "o", "ou",
  "pa", "pai", "pan", "pang", "pao", "pei", "pen", "peng", "pi", "pian", "piao", "pie", "pin", "ping", "po", "pou", "pu",
  "qi", "qia", "qian", "qiang", "qiao", "qie", "qin", "qing", "qiong", "qiu", "qu", "quan", "que", "qun",
  "ran", "rang", "rao", "re", "ren", "reng", "ri", "rong", "rou", "ru", "ruan", "rui", "run", "ruo",
  "sa", "sai", "san", "sang", "sao", "se", "sen", "seng", "sha", "shai", "shan", "shang", "shao", "she", "shen", "sheng", "shi", "shou", "shu", "shua", "shuai", "shuan", "shuang", "shui", "shun", "shuo", "si", "song", "sou", "su", "suan", "sui", "sun", "suo",
  "ta", "tai", "tan", "tang", "tao", "te", "teng", "ti", "tian", "tiao", "tie", "ting", "tong", "tou", "tu", "tuan", "tui", "tun", "tuo",
  "wa", "wai", "wan", "wang", "wei", "wen", "weng", "wo", "wu",
  "xi", "xia", "xian", "xiang", "xiao", "xie", "xin", "xing", "xiong", "xiu", "xu", "xuan", "xue", "xun",
  "ya", "yan", "yang", "yao", "ye", "yi", "yin", "ying", "yo", "yong", "you", "yu", "yuan", "yue", "yun",
  "za", "zai", "zan", "zang", "zao", "ze", "zei", "zen", "zeng", "zha", "zhai", "zhan", "zhang", "zhao", "zhe", "zhen", "zheng", "zhi", "zhong", "zhou", "zhu", "zhua", "zhuai", "zhuan", "zhuang", "zhui", "zhun", "zhuo", "zi", "zong", "zou", "zu", "zuan", "zui", "zun", "zuo"]

/-- The syllable table as byte sequences (`valid_pinyins_` after
`loadPinyinData`). -/
def pinyinTable : List (List Nat) := STANDARD_PINYINS.map utf8

/-- `valid_chars_`: the constructor seeds the map with exactly `'a'..'z'`. -/
def validChar (b : Nat) : Bool := 97 ≤ b && b ≤ 122

/-- The prefix scan inside `PinyinConverter::addChar`: some table syllable
`p` satisfies `p.length() >= t.length() && p.substr(0, t.length()) == t`. -/
def hasValidStart (t : List Nat) : Bool :=
  pinyinTable.any fun p => decide (t.length ≤ p.length) && (p.take t.length == t)

/-- `PinyinConverter::addChar`.  The C++ method mutates `current_pinyin_` and
returns `bool`; here `some newBuf` models the successful mutation and `none`
models `return false` with the buffer untouched. -/
def addChar (buf : List Nat) (ch : Nat) : Option (List Nat) :=
  if !validChar ch then none
  else
    let t := buf ++ [ch]
    if hasValidStart t then some t else none

/-- `PinyinConverter::isValidPinyin`: exact membership in `pinyin_map_`,
whose keys are exactly the table entries. -/
def isValidPinyin (s : List Nat) : Bool := pinyinTable.contains s

/-- `PinyinConverter::segmentPinyinRecursive` (functional form): all complete
partitions of `l` into table syllables.  The C++ code walks `len = 1 ..
remaining` (`i + 1` here for `i ∈ range l.length`), keeps `segment =
pinyin.substr(start, len)` when `isValidPinyin(segment)`, recurses on the
rest, and records `current` when the whole input is consumed.  The C++
guard `!current.empty()` at the recursion base only excludes the
empty-buffer top-level call, which `getPinyinSegments` already handles by
its early return, so the base case here is the single empty partition. -/
def segsFuel : Nat → List Nat → List (List (List Nat))
  | _, [] => [[]]
  | 0, _ :: _ => []
  | fuel + 1, b :: bs =>
    let l := b :: bs
    (List.range l.length).flatMap fun i =>
      if isValidPinyin (l.take (i + 1)) then
        (segsFuel fuel (l.drop (i + 1))).map fun rest => l.take (i + 1) :: rest
      else []

/-- The recursion consumes at least one byte per segment, so `l.length`
steps of fuel always suffice; `segsFuel` is the loop body and this is the
entry point. -/
def segmentsFrom (l : List Nat) : List (List (List Nat)) := segsFuel l.length l

/-- `PinyinConverter::getPinyinSegments`: empty result for an empty buffer,
otherwise the recursive enumeration. -/
def getPinyinSegments (buf : List Nat) : List (List (List Nat)) :=
  if buf = [] then [] else segmentsFrom buf

/-! ### Converter helper lemmas -/

lemma table_bytes_lower : ∀ p ∈ pinyinTable, ∀ b ∈ p, validChar b = true := by
  have h : pinyinTable.all (fun p => p.all validChar) = true := by decide
  intro p hp b hb
  exact List.all_eq_true.mp (List.all_eq_true.mp h p hp) b hb

lemma table_len_le : ∀ p ∈ pinyinTable, p.length ≤ 6 := by
  have h : pinyinTable.all (fun p => decide (p.length ≤ 6)) = true := by decide
  intro p hp
  exact of_decide_eq_true (List.all_eq_true.mp h p hp)

lemma hasValidStart_iff (t : List Nat) :
    hasValidStart t = true ↔ ∃ p ∈ pinyinTable, t <+: p := by
  unfold hasValidStart
  rw [List.any_eq_true]
  constructor
  · rintro ⟨p, hp, hcond⟩
    rw [Bool.and_eq_true, beq_iff_eq] at hcond
    refine ⟨p, hp, ?_⟩
    rw [List.prefix_iff_eq_take]
    exact hcond.2.symm
  · rintro ⟨p, hp, hpre⟩
    refine ⟨p, hp, ?_⟩
    rw [Bool.and_eq_true, beq_iff_eq]
    exact ⟨decide_eq_true hpre.length_le, (List.prefix_iff_eq_take.mp hpre).symm⟩

lemma addChar_eq_some_iff (buf : List Nat) (ch : Nat) (t : List Nat) :
    addChar buf ch = some t ↔
      t = buf ++ [ch] ∧ validChar ch = true ∧ hasValidStart (buf ++ [ch]) = true := by
  unfold addChar
  cases hv : validChar ch
  · simp [hv]
  · cases hs : hasValidStart (buf ++ [ch]) <;> simp [hv, hs, eq_comm]

lemma addChar_none_or_some (buf : List Nat) (ch : Nat) :
    addChar buf ch = none ∨ addChar buf ch = some (buf ++ [ch]) := by
  unfold addChar
  cases hv : validChar ch
  · simp
  · cases hs : hasValidStart (buf ++ [ch]) <;> simp [hs]

lemma validChar_of_table_pre {buf : List Nat} {ch : Nat}
    (h : ∃ p ∈ pinyinTable, (buf ++ [ch]) <+: p) : validChar ch = true := by
  obtain ⟨p, hp, hpre⟩ := h
  exact table_bytes_lower p hp ch (hpre.subset (by simp))

/-! ### Claim C2 -/

/-- C2: `addChar(ch)` succeeds iff the extended buffer `B ++ [ch]` is a
prefix of at least one entry of the fixed syllable table; on success the
buffer becomes `B ++ [ch]` (the `some` payload), and the only other outcome
is failure (`none`), which leaves the buffer untouched. -/
theorem claim_C2 (buf : List Nat) (ch : Nat) :
    ((addChar buf ch = some (buf ++ [ch])) ↔ ∃ p ∈ pinyinTable, (buf ++ [ch]) <+: p)
    ∧ (addChar buf ch = none ∨ addChar buf ch = some (buf ++ [ch])) := by
  refine ⟨?_, addChar_none_or_some buf ch⟩
  constructor
  · intro h
    exact (hasValidStart_iff _).mp ((addChar_eq_some_iff buf ch _).mp h).2.2
  · intro h
    exact (addChar_eq_some_iff buf ch _).mpr
      ⟨rfl, validChar_of_table_pre h, (hasValidStart_iff _).mpr h⟩

/-- C2 witness: concrete evaluation of the theorem at buffer "ni" and
character `a`, whose extension "nia" is a prefix of the table entry "nian". -/
theorem claim_C2_witness :
    addChar (utf8 "ni") 97 = some (utf8 "ni" ++ [97]) :=
  (claim_C2 (utf8 "ni") 97).1.mpr ⟨utf8 "nian", by decide, by decide⟩

/-! ### Claim C9 -/

/-- The three buffer-mutating operations of `PinyinConverter`. -/
inductive ConvOp where
  | add (b : Nat)
  | remove
  | clearAll

/-- One mutation: `addChar` keeps the old buffer on failure,
`removeLastChar` pops one byte when non-empty (`dropLast` is the identity on
`[]`, matching the early `return false`), `clear` empties the buffer. -/
def applyOp (buf : List Nat) : ConvOp → List Nat
  | .add b => (addChar buf b).getD buf
  | .remove => buf.dropLast
  | .clearAll => []

/-- Buffer after running a sequence of operations from the initial empty
buffer. -/
def runOps (ops : List ConvOp) : List Nat := ops.foldl applyOp []

/-- The buffer invariant: empty, or a prefix of some table syllable. -/
def bufInv (b : List Nat) : Prop := b = [] ∨ ∃ p ∈ pinyinTable, b <+: p

lemma bufInv_applyOp {b : List Nat} (h : bufInv b) (op : ConvOp) :
    bufInv (applyOp b op) := by
  cases op with
  | add ch =>
    show bufInv ((addChar b ch).getD b)
    cases hc : addChar b ch with
    | none => simpa using h
    | some t =>
      obtain ⟨ht, -, hs⟩ := (addChar_eq_some_iff b ch t).mp hc
      right
      simpa [ht] using (hasValidStart_iff _).mp hs
  | remove =>
    rcases h with h | ⟨p, hp, hpre⟩
    · left; simp [applyOp, h]
    · right; exact ⟨p, hp, (List.dropLast_prefix b).trans hpre⟩
  | clearAll => left; rfl

lemma bufInv_len_le {b : List Nat} (h : bufInv b) : b.length ≤ 6 := by
  rcases h with h | ⟨p, hp, hpre⟩
  · simp [h]
  · exact hpre.length_le.trans (table_len_le p hp)

/-- C9: after any sequence of `addChar`, `removeLastChar`, `clear`
operations, the converter buffer is empty or a prefix of a table syllable,
and (the longest table entry having 6 letters) never exceeds 6 bytes. -/
theorem claim_C9 (ops : List ConvOp) :
    (runOps ops = [] ∨ ∃ p ∈ pinyinTable, runOps ops <+: p)
    ∧ (runOps ops).length ≤ 6 := by
  have hinv : bufInv (runOps ops) := by
    unfold runOps
    have : ∀ start, bufInv start → bufInv (ops.foldl applyOp start) := by
      induction ops with
      | nil => intro start h; exact h
      | cons op rest ih =>
        intro start h
        exact ih _ (bufInv_applyOp h op)
    exact this [] (Or.inl rfl)
  exact ⟨hinv, bufInv_len_le hinv⟩

/-! ### Claim C10 -/

lemma segsFuel_sound :
    ∀ fuel (l : List Nat), l.length ≤ fuel → ∀ r ∈ segsFuel fuel l,
      (∀ s ∈ r, isValidPinyin s = true) ∧ r.flatten = l := by
  intro fuel
  induction fuel with
  | zero =>
    intro l hl r hr
    have hnil : l = [] := List.eq_nil_of_length_eq_zero (Nat.le_zero.mp hl)
    subst hnil
    simp only [segsFuel, List.mem_singleton] at hr
    subst hr
    simp
  | succ n ih =>
    intro l hl r hr
    cases l with
    | nil =>
      simp only [segsFuel, List.mem_singleton] at hr
      subst hr
      simp
    | cons b bs =>
      simp only [segsFuel] at hr
      obtain ⟨i, hi, hr⟩ := List.mem_flatMap.mp hr
      by_cases hseg : isValidPinyin ((b :: bs).take (i + 1)) = true
      · rw [if_pos hseg] at hr
        obtain ⟨rest, hrest, hrq⟩ := List.mem_map.mp hr
        have hlen : ((b :: bs).drop (i + 1)).length ≤ n := by
          simp only [List.length_drop, List.length_cons]
          simp only [List.length_cons] at hl
          omega
        obtain ⟨hvalid, hjoin⟩ := ih _ hlen rest hrest
        subst hrq
        constructor
        · intro s hs
          rcases List.mem_cons.mp hs with h | h
          · subst h; exact hseg
          · exact hvalid s h
        · simp only [List.flatten_cons, hjoin]
          exact List.take_append_drop (i + 1) (b :: bs)
      · rw [if_neg hseg] at hr
        exact absurd hr (List.not_mem_nil r)

/-- C10: every segmentation returned by `getPinyinSegments` is a non-empty
sequence of table syllables whose concatenation is exactly the buffer. -/
theorem claim_C10 (buf : List Nat) (r : List (List Nat))
    (hr : r ∈ getPinyinSegments buf) :
    r ≠ [] ∧ (∀ s ∈ r, isValidPinyin s = true) ∧ r.flatten = buf := by
  unfold getPinyinSegments at hr
  by_cases hnil : buf = []
  · rw [if_pos hnil] at hr
    exact absurd hr (List.not_mem_nil r)
  · rw [if_neg hnil] at hr
    obtain ⟨hvalid, hjoin⟩ := segsFuel_sound buf.length buf le_rfl r hr
    refine ⟨?_, hvalid, hjoin⟩
    intro hempty
    subst hempty
    exact hnil hjoin.symm

/-- C10 witness: the buffer "xian" yields the segmentation ["xi", "an"]
(and also ["xian"]); the theorem applies to it. -/
theorem claim_C10_witness :
    [utf8 "xi", utf8 "an"] ≠ ([] : List (List Nat))
    ∧ (∀ s ∈ [utf8 "xi", utf8 "an"], isValidPinyin s = true)
    ∧ [utf8 "xi", utf8 "an"].flatten = utf8 "xian" :=
  claim_C10 (utf8 "xian") [utf8 "xi", utf8 "an"] (by decide)

/-! ## Candidate store (dictionary_manager.cpp)

The SQLite `words` table is modelled as a `List DictEntry`; each SQL
statement is translated to the corresponding list function with SQLite
semantics.  `LIKE` is modelled byte-sensitively: every query issued by the
engine is a lowercased ASCII letter string and every stored pinyin in these
claims is lowercase ASCII, so ASCII case-insensitivity of `LIKE` never
shows.  SQL gives no tie order for rows equal under the full `ORDER BY`
key; the model fixes a stable insertion sort, and no claim below depends on
that tie order. -/

/-- One row of the `words` table (id and timestamps omitted: no claim reads
them). -/
structure DictEntry where
  word : List Nat
  pinyin : List Nat
  frequency : Int
  is_user_word : Bool
deriving DecidableEq

/-- `Candidate` from types.h (`double score` as `ℚ`). -/
structure Candidate where
  text : List Nat
  pinyin : List Nat
  score : ℚ
  frequency : Int
  is_prediction : Bool
deriving DecidableEq

/-! ### A Bool-comparator insertion sort, used wherever the source sorts -/

def insertLe {α : Type} (le : α → α → Bool) (x : α) : List α → List α
  | [] => [x]
  | y :: ys => if le x y then x :: y :: ys else y :: insertLe le x ys

def sortByB {α : Type} (le : α → α → Bool) : List α → List α
  | [] => []
  | x :: xs => insertLe le x (sortByB le xs)

lemma insertLe_perm {α : Type} (le : α → α → Bool) (x : α) (l : List α) :
    (insertLe le x l).Perm (x :: l) := by
  induction l with
  | nil => exact List.Perm.refl _
  | cons y ys ih =>
    rw [insertLe]
    by_cases h : le x y = true
    · rw [if_pos h]
    · rw [if_neg h]
      exact (ih.cons y).trans (List.Perm.swap x y ys)

lemma sortByB_perm {α : Type} (le : α → α → Bool) (l : List α) :
    (sortByB le l).Perm l := by
  induction l with
  | nil => exact List.Perm.refl _
  | cons x xs ih =>
    exact (insertLe_perm le x (sortByB le xs)).trans (ih.cons x)

lemma insertLe_pairwise {α : Type} {le : α → α → Bool}
    (htot : ∀ a b, le a b = true ∨ le b a = true)
    (htrans : ∀ a b c, le a b = true → le b c = true → le a c = true)
    {l : List α} (hl : l.Pairwise fun a b => le a b = true) (x : α) :
    (insertLe le x l).Pairwise fun a b => le a b = true := by
  induction l with
  | nil => simp [insertLe]
  | cons y ys ih =>
    rw [List.pairwise_cons] at hl
    obtain ⟨hy, hys⟩ := hl
    rw [insertLe]
    by_cases hxy : le x y = true
    · rw [if_pos hxy]
      refine List.Pairwise.cons ?_ (List.Pairwise.cons hy hys)
      intro b hb
      rcases List.mem_cons.mp hb with rfl | hb
      · exact hxy
      · exact htrans x y b hxy (hy b hb)
    · rw [if_neg hxy]
      refine List.Pairwise.cons ?_ (ih hys)
      intro b hb
      have hb' : b ∈ x :: ys := (insertLe_perm le x ys).subset hb
      rcases List.mem_cons.mp hb' with h | hb'
      · rw [h]
        rcases htot x y with h' | h'
        · exact absurd h' hxy
        · exact h'
      · exact hy b hb'

lemma sortByB_pairwise {α : Type} {le : α → α → Bool}
    (htot : ∀ a b, le a b = true ∨ le b a = true)
    (htrans : ∀ a b c, le a b = true → le b c = true → le a c = true)
    (l : List α) :
    (sortByB le l).Pairwise fun a b => le a b = true := by
  induction l with
  | nil => simp [sortByB]
  | cons x xs ih => exact insertLe_pairwise htot htrans ih x

/-! ### Scoring -/

/-- `std::string::find`: byte offset of the first occurrence of `q` in the
haystack, `none` for `npos`. -/
def findSub (q : List Nat) : List Nat → Option Nat
  | [] => if q.isPrefixOf [] then some 0 else none
  | b :: rest =>
    if q.isPrefixOf (b :: rest) then some 0 else (findSub q rest).map (· + 1)

/-- The pinyin-match branch chain of
`DictionaryManager::Impl::calculateScore`. -/
def matchBonus (word_pinyin input_pinyin : List Nat) : ℚ :=
  if word_pinyin = input_pinyin then 30
  else if findSub input_pinyin word_pinyin = some 0 then 20
  else if (findSub input_pinyin word_pinyin).isSome then 10
  else 0

/-- `DictionaryManager::Impl::calculateScore`.  `word.length()` counts the
UTF-8 bytes of the word (= `List.length` in the byte model). -/
def calculateScore (word word_pinyin : List Nat) (frequency : Int)
    (input_pinyin : List Nat) : ℚ :=
  min 50 ((frequency : ℚ) / 10) + max 0 (20 - (word.length : ℚ))
    + matchBonus word_pinyin input_pinyin

/-- SQLite `length(word)` counts characters, i.e. bytes that are not UTF-8
continuation bytes. -/
def sqliteLen (l : List Nat) : Nat :=
  (l.filter fun b => !(128 ≤ b && b ≤ 191)).length

/-- The `ORDER BY frequency DESC, length(word) ASC` key of the search
queries, as a Bool comparator. -/
def rowLe (a b : DictEntry) : Bool :=
  decide (b.frequency < a.frequency) ||
    (a.frequency == b.frequency && decide (sqliteLen a.word ≤ sqliteLen b.word))

/-- `DictionaryManager::Impl::searchByPinyin`: rows whose pinyin equals the
query (`LIKE ?` with no wildcard) or has it as a prefix (`LIKE ?||'%'`),
ordered by the `ORDER BY` key, `LIMIT max_results` (a negative SQLite LIMIT
means no limit), each row scored by `calculateScore`. -/
def searchByPinyin (db : List DictEntry) (pinyin : List Nat)
    (maxResults : Int) : List Candidate :=
  let rows := db.filter fun e => e.pinyin == pinyin || pinyin.isPrefixOf e.pinyin
  let sorted := sortByB rowLe rows
  let limited := if maxResults < 0 then sorted else sorted.take maxResults.toNat
  limited.map fun e =>
    { text := e.word, pinyin := e.pinyin,
      score := calculateScore e.word e.pinyin e.frequency pinyin,
      frequency := e.frequency, is_prediction := false }

/-- `DictionaryManager::Impl::addUserWord`: `INSERT OR REPLACE` deletes any
row with the same `UNIQUE(word, pinyin)` key and inserts the new row with
`is_user_word = 1`; statement success is modelled as `true` (storage I/O
failures are outside the model). -/
def addUserWord (db : List DictEntry) (word pinyin : List Nat)
    (frequency : Int) : Bool × List DictEntry :=
  (true,
    db.filter (fun e => !(e.word == word && e.pinyin == pinyin))
      ++ [⟨word, pinyin, frequency, true⟩])

/-- `DictionaryManager::Impl::updateWordFrequency`: `UPDATE words SET
frequency = frequency + 1 WHERE word = ? AND pinyin = ?` (timestamps not
modelled). -/
def updateWordFrequency (db : List DictEntry) (word pinyin : List Nat) :
    List DictEntry :=
  db.map fun e =>
    if e.word == word && e.pinyin == pinyin then
      { e with frequency := e.frequency + 1 }
    else e

/-- `DictionaryManager::learnUserInput`: rejects an empty text or sequence,
otherwise adds the whole text as one user word under the space-joined
pinyin with frequency 1. -/
def learnUserInput (db : List DictEntry) (text : List Nat)
    (seq : List (List Nat)) : Bool × List DictEntry :=
  if text = [] ∨ seq = [] then (false, db)
  else addUserWord db text (List.intercalate [32] seq) 1

/-- `SELECT * FROM words WHERE word = ? AND pinyin = ?` (first matching
row): the observation used to state the persistence claims. -/
def findRow (db : List DictEntry) (word pinyin : List Nat) :
    Option DictEntry :=
  db.find? fun e => e.word == word && e.pinyin == pinyin

/-! ### Claim C4 -/

lemma findSub_prefix_case {q s : List Nat} (h : q.isPrefixOf s = true) :
    findSub q s = some 0 := by
  cases s with
  | nil => rw [findSub, if_pos h]
  | cons b rest => rw [findSub, if_pos h]

lemma findSub_eq_zero_iff (q s : List Nat) :
    findSub q s = some 0 ↔ q <+: s := by
  constructor
  · intro hf
    cases s with
    | nil =>
      rw [findSub] at hf
      by_cases h : q.isPrefixOf ([] : List Nat) = true
      · exact List.isPrefixOf_iff_prefix.mp h
      · rw [if_neg h] at hf
        exact absurd hf (by simp)
    | cons b rest =>
      rw [findSub] at hf
      by_cases h : q.isPrefixOf (b :: rest) = true
      · exact List.isPrefixOf_iff_prefix.mp h
      · rw [if_neg h] at hf
        obtain ⟨n, -, hn⟩ := Option.map_eq_some'.mp hf
        exact absurd hn (by omega)
  · intro hpre
    exact findSub_prefix_case (List.isPrefixOf_iff_prefix.mpr hpre)

lemma findSub_isSome_iff (q s : List Nat) :
    (findSub q s).isSome = true ↔ q <:+: s := by
  induction s with
  | nil =>
    rw [findSub]
    by_cases h : q.isPrefixOf ([] : List Nat) = true
    · rw [if_pos h]
      simp only [Option.isSome_some, true_iff]
      exact (List.isPrefixOf_iff_prefix.mp h).isInfix
    · rw [if_neg h]
      simp only [Option.isSome_none, Bool.false_eq_true, false_iff]
      intro hinf
      have hq : q = [] := List.infix_nil.mp hinf
      subst hq
      exact h (List.isPrefixOf_iff_prefix.mpr (List.prefix_refl []))
  | cons b rest ih =>
    rw [findSub]
    by_cases h : q.isPrefixOf (b :: rest) = true
    · rw [if_pos h]
      simp only [Option.isSome_some, true_iff]
      exact (List.isPrefixOf_iff_prefix.mp h).isInfix
    · rw [if_neg h, List.infix_cons_iff]
      simp only [Option.isSome_map']
      rw [ih]
      constructor
      · exact Or.inr
      · rintro (hpre | hinf)
        · exact absurd (List.isPrefixOf_iff_prefix.mpr hpre) h
        · exact hinf

/-- The bonus exactly as the claim words it: 30 for an exact match, 20 when
the query is a proper prefix of the stored pinyin, 10 when it occurs
elsewhere inside it, 0 otherwise. -/
def matchBonusSpec (stored query : List Nat) : ℚ :=
  if stored = query then 30
  else if query <+: stored then 20
  else if query <:+: stored then 10
  else 0

lemma matchBonus_eq_spec (stored query : List Nat) :
    matchBonus stored query = matchBonusSpec stored query := by
  unfold matchBonus matchBonusSpec
  by_cases h1 : stored = query
  · simp [h1]
  · rw [if_neg h1, if_neg h1]
    by_cases h2 : query <+: stored
    · rw [if_pos ((findSub_eq_zero_iff query stored).mpr h2), if_pos h2]
    · rw [if_neg (fun h => h2 ((findSub_eq_zero_iff query stored).mp h)),
          if_neg h2]
      by_cases h3 : query <:+: stored
      · rw [if_pos ((findSub_isSome_iff query stored).mpr h3), if_pos h3]
      · rw [if_neg (fun h => h3 ((findSub_isSome_iff query stored).mp h)),
            if_neg h3]

/-- C4: every candidate returned by a store search carries score
`min(50, frequency/10) + max(0, 20 − wordLength) + matchBonus`, where
`wordLength` is the byte length of the stored word (C++
`std::string::length`) and `matchBonus` is 30/20/10/0 as the claim lists
them.  (The hypothesis of non-negative frequency in the claim is not even
needed.) -/
theorem claim_C4 (db : List DictEntry) (query : List Nat) (maxResults : Int)
    (c : Candidate) (hc : c ∈ searchByPinyin db query maxResults) :
    c.score = min 50 ((c.frequency : ℚ) / 10)
      + max 0 (20 - (c.text.length : ℚ)) + matchBonusSpec c.pinyin query := by
  unfold searchByPinyin at hc
  obtain ⟨e, -, hce⟩ := List.mem_map.mp hc
  subst hce
  simp only [calculateScore, matchBonus_eq_spec]

/-- C4 witness: the seeded entry ("你好", "ni hao", 100) searched with query
"ni" scores min(50,10) + max(0,20−6) + 20 = 44. -/
theorem claim_C4_witness :
    (Candidate.mk (utf8 "你好") (utf8 "ni hao") 44 100 false).score
      = min 50 (((Candidate.mk (utf8 "你好") (utf8 "ni hao") 44 100 false).frequency : ℚ) / 10)
        + max 0 (20 - ((Candidate.mk (utf8 "你好") (utf8 "ni hao") 44 100 false).text.length : ℚ))
        + matchBonusSpec (Candidate.mk (utf8 "你好") (utf8 "ni hao") 44 100 false).pinyin (utf8 "ni") :=
  claim_C4 [⟨utf8 "你好", utf8 "ni hao", 100, false⟩] (utf8 "ni") 9 _ (by decide)

/-! ### Claim C5 -/

lemma find?_filter_not {α : Type} (db : List α) (pk po : α → Bool)
    (h : ∀ e, pk e = true → po e = false) :
    (db.filter fun e => !(pk e)).find? po = db.find? po := by
  induction db with
  | nil => rfl
  | cons e rest ih =>
    rw [List.filter_cons]
    cases hk : pk e
    · simp only [hk, Bool.not_false, if_true]
      rw [List.find?_cons, List.find?_cons]
      cases hpo : po e
      · simp only [hpo]
        exact ih
      · simp only [hpo]
    · simp only [hk, Bool.not_true, Bool.false_eq_true, if_false]
      rw [List.find?_cons]
      simp only [h e hk]
      exact ih

/-- C5 counterexample: when the (word, pinyin) pair already exists with
frequency 5, `learnUserInput` leaves it at frequency 1 (INSERT OR REPLACE),
not the incremented 6 the claim requires. -/
theorem claim_C5_counterexample :
    (findRow (learnUserInput [⟨utf8 "测试", utf8 "ce shi", 5, true⟩]
        (utf8 "测试") [utf8 "ce", utf8 "shi"]).2
        (utf8 "测试") (utf8 "ce shi")).map DictEntry.frequency = some 1
    ∧ (findRow (learnUserInput [⟨utf8 "测试", utf8 "ce shi", 5, true⟩]
        (utf8 "测试") [utf8 "ce", utf8 "shi"]).2
        (utf8 "测试") (utf8 "ce shi")).map DictEntry.frequency ≠ some 6 := by
  constructor
  · decide
  · decide

/-- C5 amended: for non-empty text and pinyin sequence, `learnUserInput`
stores the full text as one user word keyed by the space-joined pinyin with
frequency 1 — whether the pair is new or already exists, the stored row ends
with frequency 1 (an existing row is replaced, not incremented) — and every
other (word, pinyin) key is untouched. -/
theorem claim_C5_amended (db : List DictEntry) (text : List Nat)
    (seq : List (List Nat)) (htext : text ≠ []) (hseq : seq ≠ []) :
    (learnUserInput db text seq).1 = true
    ∧ findRow (learnUserInput db text seq).2 text (List.intercalate [32] seq)
        = some ⟨text, List.intercalate [32] seq, 1, true⟩
    ∧ ∀ w p, ¬(w = text ∧ p = List.intercalate [32] seq) →
        findRow (learnUserInput db text seq).2 w p = findRow db w p := by
  have hcond : ¬(text = [] ∨ seq = []) := by
    rintro (h | h)
    · exact htext h
    · exact hseq h
  unfold learnUserInput
  rw [if_neg hcond]
  unfold addUserWord findRow
  refine ⟨rfl, ?_, ?_⟩
  · rw [List.find?_append]
    have hnone :
        (db.filter fun e =>
            !(e.word == text && e.pinyin == List.intercalate [32] seq)).find?
          (fun e => e.word == text && e.pinyin == List.intercalate [32] seq)
          = none := by
      rw [List.find?_eq_none]
      intro e he hp
      have := (List.mem_filter.mp he).2
      rw [hp] at this
      exact absurd this (by simp)
    rw [hnone]
    simp
  · intro w p hwp
    rw [List.find?_append]
    have hlast :
        (([⟨text, List.intercalate [32] seq, 1, true⟩] : List DictEntry).find?
          fun e => e.word == w && e.pinyin == p) = none := by
      rw [List.find?_eq_none]
      intro e he hp
      rw [List.mem_singleton] at he
      subst he
      rw [Bool.and_eq_true, beq_iff_eq, beq_iff_eq] at hp
      exact hwp ⟨hp.1.symm, hp.2.symm⟩
    have hdrop : ∀ e : DictEntry,
        (e.word == text && e.pinyin == List.intercalate [32] seq) = true →
        (e.word == w && e.pinyin == p) = false := by
      intro e hk
      rw [Bool.and_eq_true, beq_iff_eq, beq_iff_eq] at hk
      cases hpo : (e.word == w && e.pinyin == p)
      · rfl
      · rw [Bool.and_eq_true, beq_iff_eq, beq_iff_eq] at hpo
        exact absurd ⟨hpo.1.symm.trans hk.1, hpo.2.symm.trans hk.2⟩ hwp
    rw [hlast, find?_filter_not db _ _ hdrop, Option.or_none]

/-- C5 witness: learning ("测", "ce") into an empty store creates the user
word with frequency 1. -/
theorem claim_C5_witness :
    (learnUserInput [] (utf8 "测") [utf8 "ce"]).1 = true
    ∧ findRow (learnUserInput [] (utf8 "测") [utf8 "ce"]).2 (utf8 "测")
        (List.intercalate [32] [utf8 "ce"])
        = some ⟨utf8 "测", List.intercalate [32] [utf8 "ce"], 1, true⟩ :=
  ⟨(claim_C5_amended [] (utf8 "测") [utf8 "ce"] (by decide) (by decide)).1,
   (claim_C5_amended [] (utf8 "测") [utf8 "ce"] (by decide) (by decide)).2.1⟩

/-! ## Prediction engine (prediction_engine.cpp)

The external language model is a black box: `generateText` appears as an
oracle parameter `gen` (prompt bytes and token budget to generated bytes)
and `getNextWordProbability` as `prob`.  Everything else in the predict
paths is translated from the source. -/

/-- Mutable state of `PredictionEngine::Impl`.  `llama_predictor_` is
constructed in the constructor and never null, so its `isModelLoaded()`
flag is the only part of the collaborator the availability check reads. -/
structure PredState where
  model_path : List Nat
  prediction_threshold : ℚ
  initialized : Bool
  modelLoaded : Bool
  user_patterns : List (List Nat × List (List Nat))

/-- `PredictionEngine::Impl::isAvailable`:
`initialized_ && llama_predictor_ && llama_predictor_->isModelLoaded()`. -/
def isAvailable (s : PredState) : Bool := s.initialized && s.modelLoaded

/-- `std::isspace` in the default C locale, on a byte. -/
def isSpaceB (b : Nat) : Bool :=
  b == 9 || b == 10 || b == 11 || b == 12 || b == 13 || b == 32

/-- `std::ispunct` in the default C locale, on a byte. -/
def isPunctB (b : Nat) : Bool :=
  (33 ≤ b && b ≤ 47) || (58 ≤ b && b ≤ 64) ||
    (91 ≤ b && b ≤ 96) || (123 ≤ b && b ≤ 126)

/-- The accumulation loop of `parseGeneratedText`: split on
whitespace/punctuation bytes, flushing the current token. -/
def splitTokens : List Nat → List Nat → List (List Nat)
  | [], cur => if cur = [] then [] else [cur]
  | c :: rest, cur =>
    if isSpaceB c || isPunctB c then
      (if cur = [] then [] else [cur]) ++ splitTokens rest []
    else splitTokens rest (cur ++ [c])

/-- `PredictionEngine::Impl::parseGeneratedText`: tokenize, then drop every
word the context already contains (`context.find(word) != npos`). -/
def parseGeneratedText (generated context : List Nat) : List (List Nat) :=
  (splitTokens generated []).filter fun w => !(findSub w context).isSome

/-- The byte loop of `parsePinyinPredictions`: a high byte with at least
three bytes remaining consumes `substr(i, 3)` into the current word; any
other byte flushes the current word and is itself discarded. -/
def extractWide : List Nat → List Nat → List (List Nat)
  | [], cur => if cur = [] then [] else [cur]
  | c :: b1 :: b2 :: rest2, cur =>
    if 128 ≤ c then extractWide rest2 (cur ++ [c, b1, b2])
    else (if cur = [] then [] else [cur]) ++ extractWide (b1 :: b2 :: rest2) []
  | _ :: rest, cur =>
    (if cur = [] then [] else [cur]) ++ extractWide rest []
termination_by l _ => l.length
decreasing_by
  all_goals simp only [List.length_cons]
  all_goals omega

/-- `PredictionEngine::Impl::parsePinyinPredictions` (its
`pinyin_sequence` parameter is unused in the source body). -/
def parsePinyinPredictions (generated _pinyin_sequence : List Nat) :
    List (List Nat) :=
  extractWide generated []

/-- `iss >> word`: whitespace-separated tokens. -/
def splitWs : List Nat → List Nat → List (List Nat)
  | [], cur => if cur = [] then [] else [cur]
  | c :: rest, cur =>
    if isSpaceB c then (if cur = [] then [] else [cur]) ++ splitWs rest []
    else splitWs rest (cur ++ [c])

/-- `std::string operator<`: lexicographic byte comparison. -/
def lexLt : List Nat → List Nat → Bool
  | [], [] => false
  | [], _ :: _ => true
  | _ :: _, [] => false
  | a :: as, b :: bs => if a < b then true else if b < a then false else lexLt as bs

def lexLe (a b : List Nat) : Bool := !(lexLt b a)

/-- `std::unique`: drop adjacent duplicates, keeping the first of each
run. -/
def uniqueAdjAux (prev : List Nat) : List (List Nat) → List (List Nat)
  | [] => []
  | y :: rest => if y = prev then uniqueAdjAux prev rest else y :: uniqueAdjAux y rest

def uniqueAdj : List (List Nat) → List (List Nat)
  | [] => []
  | x :: rest => x :: uniqueAdjAux x rest

/-- `PredictionEngine::Impl::parseCompletions`: whitespace tokens that have
the partial text as a prefix and are strictly longer (byte lengths), then
`sort` + `unique`. -/
def parseCompletions (generated ptext : List Nat) : List (List Nat) :=
  let words := (splitWs generated []).filter fun w =>
    findSub ptext w == some 0 && decide (ptext.length < w.length)
  uniqueAdj (sortByB lexLe words)

/-- `PredictionEngine::Impl::calculateCompletionScore`. -/
def calculateCompletionScore (ptext completion : List Nat) : ℚ :=
  if completion.length ≤ ptext.length then 0
  else 7/10 + (1 / ((completion.length : ℚ) - ptext.length + 1)) * (3/10)

/-- `PredictionEngine::Impl::calculatePinyinScore`: base 0.6, +0.3 when the
per-pinyin user history contains the word, +0.1 when the context is
non-empty and does not contain the word, clamped to 1. -/
def calculatePinyinScore (s : PredState) (word pinyin_sequence context : List Nat) : ℚ :=
  let base : ℚ := 6/10
  let base := match s.user_patterns.find? (fun kv => kv.1 == pinyin_sequence) with
    | some kv => if kv.2.contains word then base + 3/10 else base
    | none => base
  let base := if !context.isEmpty && !(findSub word context).isSome then base + 1/10 else base
  min 1 base

/-- The shared `for` loop of the predict paths: stop when the accumulator
has reached `max_predictions` elements (a negative bound, cast to `size_t`,
never stops the loop), keep candidates whose score reaches the
threshold. -/
def takeCapped (maxp : Int) (thr : ℚ) (f : List Nat → Candidate) :
    List (List Nat) → List Candidate → List Candidate
  | [], acc => acc
  | w :: ws, acc =>
    if 0 ≤ maxp && decide (maxp.toNat ≤ acc.length) then acc
    else
      let c := f w
      if thr ≤ c.score then takeCapped maxp thr f ws (acc ++ [c])
      else takeCapped maxp thr f ws acc

/-- `PredictionEngine::Impl::predictFromPinyin`: unavailable → empty;
otherwise prompt the model, extract wide-character words, score each, keep
those at the threshold, cap at `max_predictions`; every candidate carries
the input pinyin and `is_prediction = true`. -/
def predictFromPinyin (s : PredState) (gen : List Nat → Int → List Nat)
    (pinyin_sequence context : List Nat) (max_predictions : Int) :
    List Candidate :=
  if !(isAvailable s) then []
  else
    let prompt := utf8 "根据拼音'" ++ pinyin_sequence ++ utf8 "'和上下文'"
      ++ context ++ utf8 "'，预测可能的中文词汇："
    let generated := gen prompt (max_predictions * 15)
    if generated = [] then []
    else
      takeCapped max_predictions s.prediction_threshold
        (fun w => ⟨w, pinyin_sequence,
          calculatePinyinScore s w pinyin_sequence context, 0, true⟩)
        (parsePinyinPredictions generated pinyin_sequence) []

/-- `PredictionEngine::Impl::predictNextWords`: unavailable → empty;
otherwise tokenize the generated text, drop context words, score by the
probability oracle, filter by threshold, cap, and sort by score
descending. -/
def predictNextWords (s : PredState) (gen : List Nat → Int → List Nat)
    (prob : List Nat → List Nat → ℚ) (context : List Nat)
    (max_predictions : Int) : List Candidate :=
  if !(isAvailable s) then []
  else
    let generated := gen context (max_predictions * 10)
    if generated = [] then []
    else
      sortByB (fun a b => decide (b.score ≤ a.score))
        (takeCapped max_predictions s.prediction_threshold
          (fun w => ⟨w, utf8 "pinyin", prob context w, 0, true⟩)
          (parseGeneratedText generated context) [])

/-- `PredictionEngine::Impl::completePartialInput`: unavailable or empty
partial text → empty; otherwise prompt, parse completions, score, filter,
cap. -/
def completePartialInput (s : PredState) (gen : List Nat → Int → List Nat)
    (ptext : List Nat) (max_completions : Int) : List Candidate :=
  if !(isAvailable s) || ptext.isEmpty then []
  else
    let prompt := utf8 "请补全以下文本：" ++ ptext
    let generated := gen prompt (max_completions * 20)
    if generated = [] then []
    else
      takeCapped max_completions s.prediction_threshold
        (fun w => ⟨w, utf8 "pinyin", calculateCompletionScore ptext w, 0, true⟩)
        (parseCompletions generated ptext) []

/-! ### Claim C7 -/

/-- C7: `isAvailable()` is true only if the engine initialized successfully
and the model reports loaded; and whenever it is false,
`predictFromPinyin`, `predictNextWords` and `completePartialInput` all
return the empty list (their early-return path), never an error. -/
theorem claim_C7 (s : PredState) (gen : List Nat → Int → List Nat)
    (prob : List Nat → List Nat → ℚ) (pin ctx ptext : List Nat)
    (m1 m2 m3 : Int) :
    (isAvailable s = true → s.initialized = true ∧ s.modelLoaded = true)
    ∧ (isAvailable s = false →
        predictFromPinyin s gen pin ctx m1 = []
        ∧ predictNextWords s gen prob ctx m2 = []
        ∧ completePartialInput s gen ptext m3 = []) := by
  constructor
  · intro h
    unfold isAvailable at h
    rw [Bool.and_eq_true] at h
    exact h
  · intro h
    refine ⟨?_, ?_, ?_⟩
    · unfold predictFromPinyin
      rw [if_pos (by rw [h]; rfl)]
    · unfold predictNextWords
      rw [if_pos (by rw [h]; rfl)]
    · unfold completePartialInput
      rw [if_pos (by rw [h]; rfl)]

/-- C7 witness: a state that never initialized (model path empty, nothing
loaded) reports unavailable and all three predict operations return
empty. -/
theorem claim_C7_witness :
    isAvailable ⟨[], 1/2, false, false, []⟩ = false
    ∧ predictFromPinyin ⟨[], 1/2, false, false, []⟩ (fun _ _ => utf8 "好")
        (utf8 "ni") (utf8 "你") 9 = []
    ∧ predictNextWords ⟨[], 1/2, false, false, []⟩ (fun _ _ => utf8 "好")
        (fun _ _ => 1) (utf8 "你") 9 = []
    ∧ completePartialInput ⟨[], 1/2, false, false, []⟩ (fun _ _ => utf8 "好")
        (utf8 "你") 9 = [] := by
  have h := claim_C7 ⟨[], 1/2, false, false, []⟩ (fun _ _ => utf8 "好")
    (fun _ _ => 1) (utf8 "ni") (utf8 "你") (utf8 "你") 9 9 9
  have havail : isAvailable ⟨[], 1/2, false, false, []⟩ = false := rfl
  obtain ⟨h1, h2, h3⟩ := h.2 havail
  exact ⟨havail, h1, h2, h3⟩

/-! ## Engine (engine.cpp)

`Engine::Impl` holds the composition string, the candidate list, the input
state, the converter buffer, the configuration and the dictionary.  The
prediction engine appears as a pair of parameters: `pa : Bool` for
`prediction_engine_ && prediction_engine_->isAvailable()` and `predict` for
the value `predictFromPinyin` would return for a given pinyin and count
(the engine only ever calls it with empty context).  Callbacks
(candidates-changed, commit, state-changed) perform no state mutation in
the source and are not modelled. -/

/-- `InputState` from types.h. -/
inductive InputState where
  | IDLE
  | COMPOSING
  | SELECTING
deriving DecidableEq

/-- The fields of `EngineConfig` the engine logic reads (paths omitted). -/
structure EngineConfig where
  max_candidates : Int
  enable_prediction : Bool
  enable_learning : Bool
  prediction_threshold : ℚ
deriving DecidableEq

/-- The mutable state of `Engine::Impl` (plus the dictionary contents,
owned by its `DictionaryManager`). -/
structure EngineState where
  composition : List Nat
  candidates : List Candidate
  state : InputState
  buf : List Nat
  config : EngineConfig
  db : List DictEntry
deriving DecidableEq

/-- The `std::sort` comparator `a.score > b.score`, as the non-strict
Bool relation used by the deterministic model (a stable insertion sort is
one behaviour `std::sort` may exhibit). -/
def candLe (a b : Candidate) : Bool := decide (b.score ≤ a.score)

/-- The final truncation of `updateCandidates`:
`candidates_.size() > (size_t)max_candidates` — a negative
`max_candidates` cast to `size_t` is huge, so nothing is truncated. -/
def truncCands (maxC : Int) (l : List Candidate) : List Candidate :=
  if 0 ≤ maxC && decide (maxC.toNat < l.length) then l.take maxC.toNat else l

/-- `Engine::Impl::clearComposition` (the candidates-changed callback it
fires carries no state change). -/
def clearComposition (s : EngineState) : EngineState :=
  { s with composition := [], candidates := [], buf := [],
           state := InputState.IDLE }

/-- The dictionary query of `updateCandidates`:
`searchByPinyin(composition_, max_candidates)` right after `composition_`
was set to the converter buffer. -/
def dictCands (s : EngineState) : List Candidate :=
  searchByPinyin s.db s.buf s.config.max_candidates

/-- The prediction merge loop of `updateCandidates`: appending each
predicted candidate that does not duplicate the text of one already in
`candidates_` (dictionary results and previously accepted predictions
alike) and whose score reaches `prediction_threshold`. -/
def mergePreds (thr : ℚ) : List Candidate → List Candidate → List Candidate
  | acc, [] => acc
  | acc, p :: ps =>
    if !(acc.any fun c => c.text == p.text) && decide (thr ≤ p.score) then
      mergePreds thr (acc ++ [p]) ps
    else mergePreds thr acc ps

/-- The whole candidate list of `updateCandidates` just before the sort:
dictionary results, then surviving predictions (requested count
`std::max(1, max_candidates − |dict|)`). -/
def mergedPre (pa : Bool) (predict : List Nat → Int → List Candidate)
    (s : EngineState) : List Candidate :=
  if pa then
    mergePreds s.config.prediction_threshold (dictCands s)
      (predict s.buf
        (max 1 (s.config.max_candidates - ((dictCands s).length : Int))))
  else dictCands s

/-- `Engine::Impl::updateCandidates`, deterministic model: the
`std::sort` call is modelled by the stable insertion sort on the
comparator, one of the behaviours the C++ standard permits.  Empty buffer:
clear candidates, state IDLE; otherwise search, merge, sort, truncate,
state SELECTING — in both branches `composition_` is first assigned the
converter buffer. -/
def updateCandidates (pa : Bool) (predict : List Nat → Int → List Candidate)
    (s : EngineState) : EngineState :=
  if s.buf = [] then
    { s with composition := [], candidates := [], state := InputState.IDLE }
  else
    { s with composition := s.buf,
             candidates := truncCands s.config.max_candidates
               (sortByB candLe (mergedPre pa predict s)),
             state := InputState.SELECTING }

/-- Candidate lists sorted by score descending (non-strict). -/
def scoreSortedDesc (l : List Candidate) : Prop :=
  l.Pairwise fun a b => b.score ≤ a.score

/-- Every list `std::sort` may publish from `pre`: some sorted permutation,
then the truncation.  The C++ standard leaves the relative order of
equal-score candidates unspecified. -/
def sortOutcome (maxC : Int) (pre out : List Candidate) : Prop :=
  ∃ mid, pre.Perm mid ∧ scoreSortedDesc mid ∧ out = truncCands maxC mid

/-- `Engine::Impl::updateCandidates`, relational model: like
`updateCandidates` but with the sort replaced by `sortOutcome`, covering
every behaviour `std::sort` admits. -/
def updateCandidatesRel (pa : Bool)
    (predict : List Nat → Int → List Candidate) (s s' : EngineState) : Prop :=
  if s.buf = [] then
    s' = { s with composition := [], candidates := [],
                  state := InputState.IDLE }
  else
    ∃ out, sortOutcome s.config.max_candidates (mergedPre pa predict s) out
      ∧ s' = { s with composition := s.buf, candidates := out,
                      state := InputState.SELECTING }

/-- `Engine::Impl::selectCandidate`: bounds check, optional frequency
learning, commit (callback, not modelled) and clear. -/
def selectCandidate (s : EngineState) (index : Int) : Bool × EngineState :=
  if index < 0 ∨ (s.candidates.length : Int) ≤ index then (false, s)
  else
    let c := s.candidates.getD index.toNat ⟨[], [], 0, 0, false⟩
    let db' := if s.config.enable_learning then
        updateWordFrequency s.db c.text c.pinyin
      else s.db
    (true, clearComposition { s with db := db' })

/-- `static_cast<char>(event.key_code)`, as the byte it denotes.  Only the
ranges '1'-'9', 'a'-'z', 'A'-'Z' are compared against it, and bytes at or
above 128 (negative as a signed char) fall outside all of them in C++
exactly as here. -/
def keyByte (key : Int) : Nat := (key % 256).toNat

def isLetterByte (b : Nat) : Bool :=
  (97 ≤ b && b ≤ 122) || (65 ≤ b && b ≤ 90)

/-- `std::tolower` on the letter bytes the engine passes it. -/
def toLowerByte (b : Nat) : Nat := if 65 ≤ b && b ≤ 90 then b + 32 else b

/-- The accepted-letter path of `handleKeyPress`: on `addChar` success,
recompute candidates, then `setState(COMPOSING)` — the final state
assignment, overriding the SELECTING/IDLE set inside `updateCandidates`. -/
def letterStep (pa : Bool) (predict : List Nat → Int → List Candidate)
    (s : EngineState) (b : Nat) : Bool × EngineState :=
  match addChar s.buf (toLowerByte b) with
  | some nb =>
    (true, { updateCandidates pa predict { s with buf := nb }
              with state := InputState.COMPOSING })
  | none => (false, s)

/-- `Engine::Impl::handleKeyPress`.  Backspace (8) pops and recomputes when
the composition is non-empty; Escape (27) clears; Enter (13) commits the
raw composition (callback) and clears; a digit 1-9 with an in-range index
selects that candidate; a letter goes through `addChar`; everything else is
rejected.  A digit whose index is out of range falls through to the letter
check and is rejected there, as in the source. -/
def handleKeyPress (pa : Bool) (predict : List Nat → Int → List Candidate)
    (s : EngineState) (key : Int) : Bool × EngineState :=
  if key = 8 then
    if s.composition.isEmpty then (false, s)
    else (true, updateCandidates pa predict { s with buf := s.buf.dropLast })
  else if key = 27 then (true, clearComposition s)
  else if key = 13 then
    if s.composition.isEmpty then (false, s) else (true, clearComposition s)
  else if 49 ≤ keyByte key ∧ keyByte key ≤ 57
      ∧ keyByte key - 49 < s.candidates.length then
    (true, (selectCandidate s (Int.ofNat (keyByte key - 49))).2)
  else if isLetterByte (keyByte key) then letterStep pa predict s (keyByte key)
  else (false, s)

/-- Key presses in sequence, collecting each `handleKeyPress` result. -/
def processKeys (pa : Bool) (predict : List Nat → Int → List Candidate) :
    EngineState → List Int → List Bool × EngineState
  | s, [] => ([], s)
  | s, k :: ks =>
    let r := handleKeyPress pa predict s k
    let rest := processKeys pa predict r.2 ks
    (r.1 :: rest.1, rest.2)

/-- A freshly constructed `Engine::Impl`: IDLE, empty composition and
buffer. -/
def initEngine (cfg : EngineConfig) (db : List DictEntry) : EngineState :=
  ⟨[], [], InputState.IDLE, [], cfg, db⟩

/-- Occurrences of a surface text in a candidate list (C++ `==` on
`std::string` is byte equality). -/
def countText (t : List Nat) (l : List Candidate) : Nat :=
  (l.filter fun c => c.text == t).length

/-! ### Shared concrete instances for the engine claims -/

/-- The default configuration of types.h with prediction off (the scenario
engine has no predictor). -/
def cfg1 : EngineConfig := ⟨9, false, true, 1/2⟩

/-- Store seeded with the scenario entry ("你好", "ni hao", 100). -/
def db1 : List DictEntry := [⟨utf8 "你好", utf8 "ni hao", 100, false⟩]

/-- A predictor that returns nothing (prediction disabled). -/
def predNone : List Nat → Int → List Candidate := fun _ _ => []

/-! ### Claim C1 -/

/-- C1 counterexample: from IDLE with the store seeded with
("你好", "ni hao", 100), processing n, i, h, a, o does NOT behave as
claimed: the h key press is rejected ("nih" is a prefix of no table
syllable), the final buffer is "niao" rather than "nihao", the state after
an accepted letter is COMPOSING rather than SELECTING, and the final
candidate list is empty, so "你好" is not in it. -/
theorem claim_C1_counterexample :
    (processKeys false predNone (initEngine cfg1 db1)
        [110, 105, 104, 97, 111]).1 = [true, true, false, true, true]
    ∧ (processKeys false predNone (initEngine cfg1 db1)
        [110, 105, 104, 97, 111]).2.composition = utf8 "niao"
    ∧ (processKeys false predNone (initEngine cfg1 db1)
        [110, 105, 104, 97, 111]).2.composition ≠ utf8 "nihao"
    ∧ (processKeys false predNone (initEngine cfg1 db1)
        [110, 105, 104, 97, 111]).2.state = InputState.COMPOSING
    ∧ (processKeys false predNone (initEngine cfg1 db1)
        [110, 105, 104, 97, 111]).2.candidates = [] := by
  refine ⟨by decide, by decide, by decide, by decide, by decide⟩

/-- C1 amended: typing n then i succeeds and leaves buffer "ni", state
COMPOSING, and "你好" in the candidate list with score
min(50, 100/10) + max(0, 20 − 6) + 20 = 44 (the stored pinyin "ni hao" has
the query "ni" as a proper prefix; 6 is the UTF-8 byte length of "你好");
the h key press is rejected without changing state ("nih" extends no table
syllable); a and o are then accepted, ending with buffer "niao", state
COMPOSING, and an empty candidate list. -/
theorem claim_C1_amended :
    (processKeys false predNone (initEngine cfg1 db1) [110, 105]).1
        = [true, true]
    ∧ (processKeys false predNone (initEngine cfg1 db1)
        [110, 105]).2.composition = utf8 "ni"
    ∧ (processKeys false predNone (initEngine cfg1 db1)
        [110, 105]).2.state = InputState.COMPOSING
    ∧ (processKeys false predNone (initEngine cfg1 db1)
        [110, 105]).2.candidates
        = [⟨utf8 "你好", utf8 "ni hao", 44, 100, false⟩]
    ∧ (handleKeyPress false predNone
        (processKeys false predNone (initEngine cfg1 db1) [110, 105]).2 104)
        = (false, (processKeys false predNone (initEngine cfg1 db1)
            [110, 105]).2)
    ∧ (processKeys false predNone (initEngine cfg1 db1)
        [110, 105, 104, 97, 111]).2.composition = utf8 "niao"
    ∧ (processKeys false predNone (initEngine cfg1 db1)
        [110, 105, 104, 97, 111]).2.state = InputState.COMPOSING
    ∧ (processKeys false predNone (initEngine cfg1 db1)
        [110, 105, 104, 97, 111]).2.candidates = [] := by
  refine ⟨by decide, by decide, by decide, by decide, by decide,
    by decide, by decide, by decide⟩

/-! ### Claim C3 -/

/-- How `updateCandidates` sets the state: IDLE iff the converter buffer is
empty, SELECTING otherwise — independently of whether any candidates were
found. -/
lemma updateCandidates_state (pa : Bool)
    (predict : List Nat → Int → List Candidate) (s : EngineState) :
    (updateCandidates pa predict s).state
      = if s.buf = [] then InputState.IDLE else InputState.SELECTING := by
  unfold updateCandidates
  by_cases h : s.buf = []
  · rw [if_pos h, if_pos h]
  · rw [if_neg h, if_neg h]

/-- C3 counterexample: with the seeded store, the accepted letter key n
produces a non-empty candidate list, yet the engine state is COMPOSING, not
SELECTING — `handleKeyPress` overwrites the SELECTING set by
`updateCandidates` with `setState(InputState::COMPOSING)`. -/
theorem claim_C3_counterexample :
    (handleKeyPress false predNone (initEngine cfg1 db1) 110).2.candidates
        ≠ []
    ∧ (handleKeyPress false predNone (initEngine cfg1 db1) 110).2.state
        ≠ InputState.SELECTING := by
  refine ⟨by decide, by decide⟩

/-- C3 amended: after an accepted letter key the state is COMPOSING
(regardless of the candidate list); after a backspace on a non-empty
composition the state is IDLE when the popped buffer is empty and SELECTING
otherwise — again regardless of whether the recomputed candidate list is
empty. -/
theorem claim_C3_amended (pa : Bool)
    (predict : List Nat → Int → List Candidate) (s : EngineState)
    (key : Int) :
    ((∃ nb, addChar s.buf (toLowerByte (keyByte key)) = some nb) →
      isLetterByte (keyByte key) = true →
      (handleKeyPress pa predict s key).2.state = InputState.COMPOSING)
    ∧ (s.composition.isEmpty = false →
        ((s.buf.dropLast = [] →
          (handleKeyPress pa predict s 8).2.state = InputState.IDLE)
        ∧ (s.buf.dropLast ≠ [] →
          (handleKeyPress pa predict s 8).2.state = InputState.SELECTING))) := by
  constructor
  · rintro ⟨nb, hnb⟩ hletter
    have h8 : ¬(key = 8) := by rintro rfl; revert hletter; decide
    have h27 : ¬(key = 27) := by rintro rfl; revert hletter; decide
    have h13 : ¬(key = 13) := by rintro rfl; revert hletter; decide
    have hlp : (97 ≤ keyByte key ∧ keyByte key ≤ 122)
        ∨ (65 ≤ keyByte key ∧ keyByte key ≤ 90) := by
      rw [isLetterByte, Bool.or_eq_true, Bool.and_eq_true,
        Bool.and_eq_true] at hletter
      rcases hletter with ⟨h1, h2⟩ | ⟨h1, h2⟩
      · exact Or.inl ⟨of_decide_eq_true h1, of_decide_eq_true h2⟩
      · exact Or.inr ⟨of_decide_eq_true h1, of_decide_eq_true h2⟩
    have hnd : ¬(49 ≤ keyByte key ∧ keyByte key ≤ 57
        ∧ keyByte key - 49 < s.candidates.length) := by
      rintro ⟨-, hle, -⟩
      rcases hlp with ⟨h1, -⟩ | ⟨h1, -⟩ <;> omega
    unfold handleKeyPress
    rw [if_neg h8, if_neg h27, if_neg h13, if_neg hnd, if_pos hletter]
    unfold letterStep
    rw [hnb]
  · intro hcomp
    have hc : ¬(s.composition.isEmpty = true) := by rw [hcomp]; decide
    constructor
    · intro hbe
      unfold handleKeyPress
      rw [if_pos rfl, if_neg hc]
      rw [updateCandidates_state]
      simp [hbe]
    · intro hbne
      unfold handleKeyPress
      rw [if_pos rfl, if_neg hc]
      rw [updateCandidates_state]
      simp only [if_neg hbne]

/-- A state mid-composition with buffer "ni" over an empty store, used to
exhibit a backspace that leaves the buffer non-empty with an empty
candidate list. -/
def sB : EngineState :=
  ⟨utf8 "ni", [⟨utf8 "你好", utf8 "ni hao", 44, 100, false⟩],
    InputState.COMPOSING, utf8 "ni", cfg1, []⟩

/-- C3 witness: the accepted letter n from IDLE ends in COMPOSING, and a
backspace from buffer "ni" over an empty store ends in SELECTING with an
empty candidate list. -/
theorem claim_C3_witness :
    (handleKeyPress false predNone (initEngine cfg1 db1) 110).2.state
        = InputState.COMPOSING
    ∧ (handleKeyPress false predNone sB 8).2.state = InputState.SELECTING
    ∧ (handleKeyPress false predNone sB 8).2.candidates = [] :=
  ⟨(claim_C3_amended false predNone (initEngine cfg1 db1) 110).1
      ⟨utf8 "n", by decide⟩ (by decide),
   ((claim_C3_amended false predNone sB 8).2 (by decide)).2 (by decide),
   by decide⟩

/-! ### Claim C6 -/

lemma countText_append (t : List Nat) (l₁ l₂ : List Candidate) :
    countText t (l₁ ++ l₂) = countText t l₁ + countText t l₂ := by
  unfold countText
  rw [List.filter_append, List.length_append]

lemma countText_of_perm (t : List Nat) {l l' : List Candidate}
    (h : l.Perm l') : countText t l = countText t l' := by
  unfold countText
  rw [← List.countP_eq_length_filter, ← List.countP_eq_length_filter]
  exact h.countP_eq _

lemma countText_sublist_le (t : List Nat) {l l' : List Candidate}
    (h : List.Sublist l l') : countText t l ≤ countText t l' := by
  unfold countText
  rw [← List.countP_eq_length_filter, ← List.countP_eq_length_filter]
  exact h.countP_le _

lemma truncCands_sublist (maxC : Int) (l : List Candidate) :
    List.Sublist (truncCands maxC l) l := by
  unfold truncCands
  by_cases h : (0 ≤ maxC && decide (maxC.toNat < l.length)) = true
  · rw [if_pos h]
    exact List.take_sublist _ l
  · rw [if_neg h]

lemma mergePreds_countText_le (thr : ℚ) (t : List Nat) :
    ∀ (ps acc : List Candidate), countText t acc ≤ 1 →
      countText t (mergePreds thr acc ps) ≤ 1 := by
  intro ps
  induction ps with
  | nil => intro acc h; exact h
  | cons p ps ih =>
    intro acc h
    simp only [mergePreds]
    by_cases hcond :
        (!(acc.any fun c => c.text == p.text) && decide (thr ≤ p.score)) = true
    · rw [if_pos hcond]
      apply ih
      rw [countText_append]
      by_cases hpt : p.text = t
      · have hany : (acc.any fun c => c.text == p.text) = false := by
          rcases Bool.and_eq_true _ _ ▸ hcond with ⟨hna, -⟩
          rwa [Bool.not_eq_true'] at hna
        have hzero : countText t acc = 0 := by
          unfold countText
          rw [List.length_eq_zero, List.filter_eq_nil_iff]
          intro c hc
          have := List.any_eq_false.mp hany c hc
          rw [hpt] at this
          exact this
        rw [hzero]
        simp [countText, hpt]
      · have hone : countText t [p] = 0 := by
          simp [countText, hpt]
        rw [hone]
        omega
    · rw [if_neg hcond]
      exact ih acc h

lemma mergePreds_keeps_dict (thr : ℚ) (t : List Nat) :
    ∀ (ps acc : List Candidate), (∃ c ∈ acc, c.text = t) →
      (∀ c ∈ acc, c.text = t → c.is_prediction = false) →
      ∀ c ∈ mergePreds thr acc ps, c.text = t → c.is_prediction = false := by
  intro ps
  induction ps with
  | nil =>
    intro acc _ hall
    simpa [mergePreds] using hall
  | cons p ps ih =>
    intro acc hex hall
    simp only [mergePreds]
    by_cases hcond :
        (!(acc.any fun c => c.text == p.text) && decide (thr ≤ p.score)) = true
    · rw [if_pos hcond]
      apply ih
      · obtain ⟨c, hc, hct⟩ := hex
        exact ⟨c, List.mem_append_left _ hc, hct⟩
      · intro c hc hct
        rcases List.mem_append.mp hc with h | h
        · exact hall c h hct
        · rw [List.mem_singleton] at h
          subst h
          exfalso
          have hany : (acc.any fun c0 => c0.text == c.text) = false := by
            rcases Bool.and_eq_true _ _ ▸ hcond with ⟨hna, -⟩
            rwa [Bool.not_eq_true'] at hna
          obtain ⟨c0, hc0, hc0t⟩ := hex
          apply List.any_eq_false.mp hany c0 hc0
          rw [beq_iff_eq, hc0t, hct]
    · rw [if_neg hcond]
      exact ih acc hex hall

lemma searchByPinyin_not_pred (db : List DictEntry) (q : List Nat)
    (m : Int) : ∀ c ∈ searchByPinyin db q m, c.is_prediction = false := by
  intro c hc
  unfold searchByPinyin at hc
  obtain ⟨e, -, hce⟩ := List.mem_map.mp hc
  subst hce
  rfl

/-- C6 amended: every AI guess whose text duplicates a candidate already
merged (a dictionary result or an earlier surviving guess) is dropped, so
whenever the dictionary results contain a text at most once, every
published list contains it at most once; and whenever the dictionary
results do contain it, every published candidate with that text is the
dictionary one, with is_prediction = false.  (The original claim fails when
the dictionary search itself returns the same text under two different
stored pinyins — see the counterexample.) -/
theorem claim_C6_amended (pa : Bool)
    (predict : List Nat → Int → List Candidate) (s s' : EngineState)
    (t : List Nat) (hrel : updateCandidatesRel pa predict s s')
    (hdict : countText t (dictCands s) ≤ 1) :
    countText t s'.candidates ≤ 1
    ∧ ((∃ c ∈ dictCands s, c.text = t) →
        ∀ c ∈ s'.candidates, c.text = t → c.is_prediction = false) := by
  unfold updateCandidatesRel at hrel
  by_cases hb : s.buf = []
  · rw [if_pos hb] at hrel
    subst hrel
    constructor
    · simp [countText]
    · intro _ c hc
      exact absurd hc (List.not_mem_nil c)
  · rw [if_neg hb] at hrel
    obtain ⟨out, ⟨mid, hperm, hsort, hout⟩, hs'⟩ := hrel
    subst hs'
    have hpre_count : countText t (mergedPre pa predict s) ≤ 1 := by
      unfold mergedPre
      by_cases hpa : pa = true
      · rw [if_pos hpa]
        exact mergePreds_countText_le _ t _ _ hdict
      · rw [if_neg hpa]
        exact hdict
    have hsub : List.Sublist out mid := hout ▸ truncCands_sublist _ _
    constructor
    · show countText t out ≤ 1
      calc countText t out ≤ countText t mid := countText_sublist_le t hsub
        _ = countText t (mergedPre pa predict s) :=
          (countText_of_perm t hperm).symm
        _ ≤ 1 := hpre_count
    · intro hex c hc hct
      have hcmem : c ∈ mergedPre pa predict s :=
        hperm.mem_iff.mpr (hsub.subset hc)
      unfold mergedPre at hcmem
      by_cases hpa : pa = true
      · rw [if_pos hpa] at hcmem
        exact mergePreds_keeps_dict _ t _ _ hex
          (fun c0 hc0 _ => searchByPinyin_not_pred s.db s.buf
            s.config.max_candidates c0 hc0) c hcmem hct
      · rw [if_neg hpa] at hcmem
        exact searchByPinyin_not_pred s.db s.buf s.config.max_candidates c hcmem

/-- Configuration with prediction enabled. -/
def cfg6 : EngineConfig := ⟨9, true, true, 1/2⟩

/-- A store holding the same word "你好" under two stored pinyins, both
matching the query "ni". -/
def db6 : List DictEntry :=
  [⟨utf8 "你好", utf8 "ni hao", 100, false⟩,
   ⟨utf8 "你好", utf8 "nihao", 90, false⟩]

/-- A predictor that also returns "你好". -/
def pred6 : List Nat → Int → List Candidate :=
  fun _ _ => [⟨utf8 "你好", utf8 "ni", 6/10, 0, true⟩]

/-- Mid-composition state with buffer "ni" over `db6`. -/
def s6 : EngineState :=
  ⟨utf8 "ni", [], InputState.COMPOSING, utf8 "ni", cfg6, db6⟩

/-- C6 counterexample: the dictionary search and the predictor both return
"你好" for buffer "ni", yet the merged candidate list contains "你好"
twice — the dictionary returned it under two stored pinyins, and the dedup
only drops AI guesses.  (Both surviving occurrences are dictionary ones;
the "at most once" half of the claim is what fails.) -/
theorem claim_C6_counterexample :
    (⟨utf8 "你好", utf8 "ni hao", 44, 100, false⟩ : Candidate) ∈ dictCands s6
    ∧ (⟨utf8 "你好", utf8 "ni", 6/10, 0, true⟩ : Candidate)
        ∈ pred6 (utf8 "ni") 7
    ∧ countText (utf8 "你好") (updateCandidates true pred6 s6).candidates
        = 2 := by
  refine ⟨by decide, by decide, by decide⟩

/-- Mid-composition state with buffer "ni" over the single-entry store. -/
def sW : EngineState :=
  ⟨utf8 "ni", [], InputState.COMPOSING, utf8 "ni", cfg6, db1⟩

def c44 : Candidate := ⟨utf8 "你好", utf8 "ni hao", 44, 100, false⟩

/-- The published state the relational update reaches from `sW`. -/
def sW' : EngineState :=
  ⟨utf8 "ni", [c44], InputState.SELECTING, utf8 "ni", cfg6, db1⟩

lemma relW : updateCandidatesRel true pred6 sW sW' := by
  unfold updateCandidatesRel
  rw [if_neg (by decide)]
  refine ⟨[c44], ⟨[c44], ?_, ?_, ?_⟩, ?_⟩
  · have h : mergedPre true pred6 sW = [c44] := by decide
    rw [h]
  · unfold scoreSortedDesc
    exact List.pairwise_singleton _ _
  · decide
  · decide

/-- C6 witness: with "你好" stored once and also predicted, the published
list contains it exactly once, from the dictionary. -/
theorem claim_C6_witness :
    countText (utf8 "你好") sW'.candidates ≤ 1
    ∧ (∀ c ∈ sW'.candidates, c.text = utf8 "你好" →
        c.is_prediction = false) := by
  have h := claim_C6_amended true pred6 sW sW' (utf8 "你好") relW (by decide)
  exact ⟨h.1, h.2 ⟨c44, by decide, by decide⟩⟩

/-! ### Claim C8 -/

/-- Two stored words with the same pinyin "ni" and the same frequency: both
score min(50,10) + max(0,20−6) + 30 = 54 for the query "ni". -/
def db8 : List DictEntry :=
  [⟨utf8 "你好", utf8 "ni", 100, false⟩,
   ⟨utf8 "世界", utf8 "ni", 100, false⟩]

def s8 : EngineState :=
  ⟨utf8 "ni", [], InputState.COMPOSING, utf8 "ni", cfg1, db8⟩

def cNi54 : Candidate := ⟨utf8 "你好", utf8 "ni", 54, 100, false⟩

def cShi54 : Candidate := ⟨utf8 "世界", utf8 "ni", 54, 100, false⟩

/-- The published state with the two equal-score candidates in the order
opposite to their pre-sort insertion order. -/
def s8' : EngineState :=
  ⟨utf8 "ni", [cShi54, cNi54], InputState.SELECTING, utf8 "ni", cfg1, db8⟩

/-- C8 counterexample: `std::sort` is not stable, so the engine may publish
the two equal-score candidates in the order opposite to their pre-sort
insertion order: the relational update (which captures exactly the
behaviours the C++ standard permits for `std::sort`) reaches a published
list `[cShi54, cNi54]` although the merge inserted `cNi54` first. -/
theorem claim_C8_counterexample :
    updateCandidatesRel false predNone s8 s8'
    ∧ mergedPre false predNone s8 = [cNi54, cShi54]
    ∧ s8'.candidates = [cShi54, cNi54]
    ∧ cNi54.score = cShi54.score
    ∧ cNi54 ≠ cShi54 := by
  refine ⟨?_, by decide, by decide, by decide, by decide⟩
  unfold updateCandidatesRel
  rw [if_neg (by decide)]
  refine ⟨[cShi54, cNi54], ⟨[cShi54, cNi54], ?_, ?_, ?_⟩, ?_⟩
  · have h : mergedPre false predNone s8 = [cNi54, cShi54] := by decide
    rw [h]
    exact List.Perm.swap cShi54 cNi54 []
  · unfold scoreSortedDesc
    refine List.Pairwise.cons ?_ (List.pairwise_singleton _ _)
    intro b hb
    rw [List.mem_singleton] at hb
    subst hb
    decide
  · decide
  · decide

/-- C8 amended: every published candidate list is ordered by score
descending (non-strictly); the relative order of equal-score candidates is
unspecified because the source sorts with `std::sort`, which gives no
stability guarantee — dictionary results merely precede AI results in the
pre-sort merge order. -/
theorem claim_C8_amended (pa : Bool)
    (predict : List Nat → Int → List Candidate) (s s' : EngineState)
    (hrel : updateCandidatesRel pa predict s s') :
    scoreSortedDesc s'.candidates := by
  unfold updateCandidatesRel at hrel
  by_cases hb : s.buf = []
  · rw [if_pos hb] at hrel
    subst hrel
    exact List.Pairwise.nil
  · rw [if_neg hb] at hrel
    obtain ⟨out, ⟨mid, -, hsort, hout⟩, hs'⟩ := hrel
    subst hs'
    show scoreSortedDesc out
    rw [hout]
    exact hsort.sublist (truncCands_sublist _ _)

/-- The published state with the candidates in the stable order. -/
def s8s : EngineState :=
  ⟨utf8 "ni", [cNi54, cShi54], InputState.SELECTING, utf8 "ni", cfg1, db8⟩

lemma relW8 : updateCandidatesRel false predNone s8 s8s := by
  unfold updateCandidatesRel
  rw [if_neg (by decide)]
  refine ⟨[cNi54, cShi54], ⟨[cNi54, cShi54], ?_, ?_, ?_⟩, ?_⟩
  · have h : mergedPre false predNone s8 = [cNi54, cShi54] := by decide
    rw [h]
  · unfold scoreSortedDesc
    refine List.Pairwise.cons ?_ (List.pairwise_singleton _ _)
    intro b hb
    rw [List.mem_singleton] at hb
    subst hb
    decide
  · decide
  · decide

/-- C8 witness: a concrete published list reached by the relational update
is sorted by score descending. -/
theorem claim_C8_witness : scoreSortedDesc s8s.candidates :=
  claim_C8_amended false predNone s8 s8s relW8

end OwCat
